import Mathlib

/-!
Shallow embedding of `src/contract/listingContract.rs` (NearSandbox).

The contract state is a vector of listings plus a key-unique map from the
caller's NEAR account to a NOVA account string.  `env::predecessor_account_id()`
is modelled as an explicit `caller` parameter.  A Rust `assert!`/`assert_eq!`
panic aborts the NEAR call; we model the mutating entry points that can panic
as returning the state at the moment of the panic together with an error tag,
and the persisted-state semantics (`exec`) rolls an errored call back to the
pre-call state, as the NEAR host does.

`purchase_number` is a `u32` in the source: its value always lies below
`2^32 = 4294967296`, and the `+= 1` of `buy` is modelled as addition modulo
`2^32`, so the counter wraps at the u32 bound instead of counting on
unboundedly.  (Under a build with overflow checks the increment at
`2^32 - 1` would abort the call instead of wrapping; below the bound the two
semantics coincide.)
-/

namespace NearSandbox

abbrev AccountId := String

/-- `ListingKind` from the source: closed variant set. -/
inductive ListingKind where
  | Image
  | Dataset
  | Audio
  | Other
deriving DecidableEq

/-- The `Listing` struct from the source, field for field. -/
structure Listing where
  product_id : Nat
  price : Nat
  nova_group_id : String
  owner : AccountId
  purchase_number : Nat
  list_type : ListingKind
  cid : String
  is_active : Bool
  buyers : List AccountId
  buyers_with_access : List AccountId
  is_tee_verified : Bool
  tee_signature : Option String
deriving DecidableEq

/-- Contract state: `Vector<Listing>` as a list, `UnorderedMap<AccountId, String>`
as a key-unique association list. -/
structure Contract where
  listings : List Listing
  nova_account_map : List (AccountId × String)
deriving DecidableEq

/-- `Default::default()`: empty listings, empty map. -/
def Contract.init : Contract :=
  { listings := [], nova_account_map := [] }

/-- The two panic kinds of the contract (`assert_eq!` on the owner,
`assert!` on buyer membership). -/
inductive ContractErr where
  | authorization
  | precondition
deriving DecidableEq

/-- `UnorderedMap::insert`: overwrite the value at the key if present,
otherwise add the entry. -/
def mapInsert (m : List (AccountId × String)) (k : AccountId) (v : String) :
    List (AccountId × String) :=
  match m with
  | [] => [(k, v)]
  | (k₀, v₀) :: rest =>
      if k₀ = k then (k, v) :: rest else (k₀, v₀) :: mapInsert rest k v

/-- `UnorderedMap::get`. -/
def mapLookup (m : List (AccountId × String)) (k : AccountId) : Option String :=
  match m with
  | [] => none
  | (k₀, v₀) :: rest => if k₀ = k then some v₀ else mapLookup rest k

/-- `Contract::create_listing`: append a fresh listing, no checks. -/
def create_listing (c : Contract) (product_id : Nat) (price : Nat)
    (nova_group_id : String) (list_type : ListingKind) (cid : String)
    (gp_owner : AccountId) (is_tee_verified : Bool)
    (tee_signature : Option String) : Contract :=
  { c with
    listings := c.listings ++
      [{ product_id := product_id
         price := price
         nova_group_id := nova_group_id
         owner := gp_owner
         purchase_number := 0
         list_type := list_type
         cid := cid
         is_active := true
         buyers := []
         buyers_with_access := []
         is_tee_verified := is_tee_verified
         tee_signature := tee_signature }] }

/-- The common scan of `buy` / `grant_buyer_access` / `revoke_buyer_access`:
walk the listings in storage order, apply `f` to the first one whose
`product_id` matches (`f` returns the possibly-updated listing and the panic,
if any, raised while handling it), leave everything else alone, and stop
(`break`) after the first match. -/
def updateFirst (p_id : Nat) (f : Listing → Listing × Option ContractErr) :
    List Listing → List Listing × Option ContractErr
  | [] => ([], none)
  | item :: rest =>
      if item.product_id = p_id then
        ((f item).1 :: rest, (f item).2)
      else
        let r := updateFirst p_id f rest
        (item :: r.1, r.2)

/-- The listing update performed by `buy` on the matched listing: increment
the u32 `purchase_number` unconditionally (modulo `2^32 = 4294967296`, the
u32 wrap), insert the caller into `buyers` if absent. -/
def buyUpd (buyer_account : AccountId) (item : Listing) : Listing :=
  { item with
    purchase_number := (item.purchase_number + 1) % 4294967296
    buyers :=
      if buyer_account ∈ item.buyers then item.buyers
      else item.buyers ++ [buyer_account] }

/-- `Contract::buy`: unconditionally upsert the NOVA identity map for the
caller, then update the first listing matching `p_id` (if any). Never panics. -/
def buy (c : Contract) (buyer_account : AccountId) (p_id : Nat)
    (nova_account_id : String) : Contract :=
  { listings := (updateFirst p_id (fun item => (buyUpd buyer_account item, none)) c.listings).1
    nova_account_map := mapInsert c.nova_account_map buyer_account nova_account_id }

/-- `Contract::get_nova_account`. -/
def get_nova_account (c : Contract) (near_wallet : AccountId) : Option String :=
  mapLookup c.nova_account_map near_wallet

/-- The body `grant_buyer_access` runs on the matched listing: assert the
caller is the owner (else `authorization` panic), assert the buyer has
purchased (else `precondition` panic), then insert the buyer into
`buyers_with_access` if absent. -/
def grantBody (caller : AccountId) (buyer : AccountId) (item : Listing) :
    Listing × Option ContractErr :=
  if item.owner ≠ caller then (item, some .authorization)
  else if buyer ∉ item.buyers then (item, some .precondition)
  else
    ({ item with
       buyers_with_access :=
         if buyer ∈ item.buyers_with_access then item.buyers_with_access
         else item.buyers_with_access ++ [buyer] }, none)

/-- `Contract::grant_buyer_access`.  Returns the state at the end of the call
(or at the panic, when one is raised) together with the panic, if any. -/
def grant_buyer_access (c : Contract) (caller : AccountId) (p_id : Nat)
    (buyer : AccountId) : Contract × Option ContractErr :=
  let r := updateFirst p_id (grantBody caller buyer) c.listings
  ({ c with listings := r.1 }, r.2)

/-- The body `revoke_buyer_access` runs on the matched listing: assert the
caller is the owner (else `authorization` panic), then retain in
`buyers_with_access` every account other than `buyer`. -/
def revokeBody (caller : AccountId) (buyer : AccountId) (item : Listing) :
    Listing × Option ContractErr :=
  if item.owner ≠ caller then (item, some .authorization)
  else
    ({ item with
       buyers_with_access :=
         item.buyers_with_access.filter (fun b => decide (b ≠ buyer)) }, none)

/-- `Contract::revoke_buyer_access`. -/
def revoke_buyer_access (c : Contract) (caller : AccountId) (p_id : Nat)
    (buyer : AccountId) : Contract × Option ContractErr :=
  let r := updateFirst p_id (revokeBody caller buyer) c.listings
  ({ c with listings := r.1 }, r.2)

/-- The scan of `Contract::get_listing`: first listing whose `product_id`
matches, in storage order. -/
def findListing (p_id : Nat) : List Listing → Option Listing
  | [] => none
  | item :: rest =>
      if item.product_id = p_id then some item else findListing p_id rest

/-- `Contract::get_listing`. -/
def get_listing (c : Contract) (p_id : Nat) : Option Listing :=
  findListing p_id c.listings

/-- `Contract::get_pending_access_buyers`: buyers of the resolved listing not
yet in `buyers_with_access`; empty when the listing is absent. -/
def get_pending_access_buyers (c : Contract) (p_id : Nat) : List AccountId :=
  match get_listing c p_id with
  | some listing =>
      listing.buyers.filter (fun buyer => decide (buyer ∉ listing.buyers_with_access))
  | none => []

/-- `Contract::get_buyers_with_access`: `buyers_with_access` verbatim; empty
when the listing is absent. -/
def get_buyers_with_access (c : Contract) (p_id : Nat) : List AccountId :=
  match get_listing c p_id with
  | some listing => listing.buyers_with_access
  | none => []

/-- One external call, with the environment-supplied caller identity where the
source reads `env::predecessor_account_id()`. -/
inductive Op where
  | createOp (product_id : Nat) (price : Nat) (nova_group_id : String)
      (list_type : ListingKind) (cid : String) (gp_owner : AccountId)
      (is_tee_verified : Bool) (tee_signature : Option String)
  | buyOp (caller : AccountId) (p_id : Nat) (nova_account_id : String)
  | grantOp (caller : AccountId) (p_id : Nat) (buyer : AccountId)
  | revokeOp (caller : AccountId) (p_id : Nat) (buyer : AccountId)

/-- Persisted-state semantics of one call: a panicking call is rolled back in
full by the NEAR host, so the pre-call state persists. -/
def exec (c : Contract) : Op → Contract
  | .createOp product_id price nova_group_id list_type cid gp_owner tv ts =>
      create_listing c product_id price nova_group_id list_type cid gp_owner tv ts
  | .buyOp caller p_id nova_account_id => buy c caller p_id nova_account_id
  | .grantOp caller p_id buyer =>
      match grant_buyer_access c caller p_id buyer with
      | (c₁, none) => c₁
      | (_, some _) => c
  | .revokeOp caller p_id buyer =>
      match revoke_buyer_access c caller p_id buyer with
      | (c₁, none) => c₁
      | (_, some _) => c

/-- Run a sequence of calls from a state. -/
def execAll (c : Contract) (ops : List Op) : Contract :=
  ops.foldl exec c

/-- States reachable from the freshly deployed (default) contract. -/
def Reachable (c : Contract) : Prop :=
  ∃ ops : List Op, execAll Contract.init ops = c

/-! ### Generic lemmas about the first-match scan -/

theorem updateFirst_length (p_id : Nat) (f : Listing → Listing × Option ContractErr) :
    ∀ xs : List Listing, (updateFirst p_id f xs).1.length = xs.length := by
  intro xs
  induction xs with
  | nil => rfl
  | cons item rest ih =>
      by_cases h : item.product_id = p_id <;> simp [updateFirst, h, ih]

theorem findListing_eq_none (p_id : Nat) :
    ∀ xs : List Listing, (∀ x ∈ xs, x.product_id ≠ p_id) → findListing p_id xs = none := by
  intro xs
  induction xs with
  | nil => intro _; rfl
  | cons item rest ih =>
      intro h
      have h₀ : item.product_id ≠ p_id := h item (List.mem_cons_self _ _)
      simp only [findListing, if_neg h₀]
      exact ih fun x hx => h x (List.mem_cons_of_mem _ hx)

theorem findListing_append_first (p_id : Nat) (l : Listing) (ys : List Listing)
    (hl : l.product_id = p_id) :
    ∀ xs : List Listing, (∀ x ∈ xs, x.product_id ≠ p_id) →
      findListing p_id (xs ++ l :: ys) = some l := by
  intro xs
  induction xs with
  | nil => intro _; simp [findListing, hl]
  | cons item rest ih =>
      intro h
      have h₀ : item.product_id ≠ p_id := h item (List.mem_cons_self _ _)
      simp only [List.cons_append, findListing, if_neg h₀]
      exact ih fun x hx => h x (List.mem_cons_of_mem _ hx)

theorem findListing_mem (p_id : Nat) :
    ∀ xs : List Listing, ∀ l : Listing, findListing p_id xs = some l → l ∈ xs := by
  intro xs
  induction xs with
  | nil => intro l h; simp [findListing] at h
  | cons item rest ih =>
      intro l h
      by_cases h₀ : item.product_id = p_id
      · simp only [findListing, if_pos h₀, Option.some.injEq] at h
        exact h ▸ List.mem_cons_self _ _
      · simp only [findListing, if_neg h₀] at h
        exact List.mem_cons_of_mem _ (ih l h)

theorem updateFirst_of_none (p_id : Nat) (f : Listing → Listing × Option ContractErr) :
    ∀ xs : List Listing, findListing p_id xs = none → updateFirst p_id f xs = (xs, none) := by
  intro xs
  induction xs with
  | nil => intro _; rfl
  | cons item rest ih =>
      intro h
      by_cases h₀ : item.product_id = p_id
      · simp [findListing, h₀] at h
      · simp only [findListing, if_neg h₀] at h
        simp [updateFirst, h₀, ih h]

theorem updateFirst_of_some (p_id : Nat) (f : Listing → Listing × Option ContractErr)
    (hf : ∀ item, ((f item).1).product_id = item.product_id) :
    ∀ xs : List Listing, ∀ l : Listing, findListing p_id xs = some l →
      findListing p_id (updateFirst p_id f xs).1 = some (f l).1 ∧
        (updateFirst p_id f xs).2 = (f l).2 := by
  intro xs
  induction xs with
  | nil => intro l h; simp [findListing] at h
  | cons item rest ih =>
      intro l h
      by_cases h₀ : item.product_id = p_id
      · simp only [findListing, if_pos h₀, Option.some.injEq] at h
        subst h
        have h₁ : ((f item).1).product_id = p_id := (hf item).trans h₀
        simp [updateFirst, h₀, findListing, h₁]
      · simp only [findListing, if_neg h₀] at h
        have := ih l h
        simp [updateFirst, h₀, findListing, this.1, this.2]

theorem updateFirst_err (p_id : Nat) (f : Listing → Listing × Option ContractErr)
    (hf : ∀ item e, (f item).2 = some e → (f item).1 = item) :
    ∀ xs : List Listing, ∀ e : ContractErr,
      (updateFirst p_id f xs).2 = some e → (updateFirst p_id f xs).1 = xs := by
  intro xs
  induction xs with
  | nil => intro e h; rfl
  | cons item rest ih =>
      intro e h
      by_cases h₀ : item.product_id = p_id
      · simp only [updateFirst, if_pos h₀] at h ⊢
        rw [hf item e h]
      · simp only [updateFirst, if_neg h₀] at h ⊢
        rw [ih e h]

theorem updateFirst_getElem_cases (p_id : Nat) (f : Listing → Listing × Option ContractErr) :
    ∀ xs : List Listing, ∀ i : Nat, ∀ l : Listing, xs[i]? = some l →
      (updateFirst p_id f xs).1[i]? = some l ∨
        (updateFirst p_id f xs).1[i]? = some (f l).1 := by
  intro xs
  induction xs with
  | nil => intro i l h; simp at h
  | cons item rest ih =>
      intro i l h
      by_cases h₀ : item.product_id = p_id
      · simp only [updateFirst, if_pos h₀]
        match i with
        | 0 =>
            simp only [List.getElem?_cons_zero, Option.some.injEq] at h
            subst h
            right
            simp
        | i + 1 =>
            simp only [List.getElem?_cons_succ] at h ⊢
            exact Or.inl h
      · simp only [updateFirst, if_neg h₀]
        match i with
        | 0 =>
            simp only [List.getElem?_cons_zero, Option.some.injEq] at h
            subst h
            left
            simp
        | i + 1 =>
            simp only [List.getElem?_cons_succ] at h ⊢
            exact ih i l h

theorem updateFirst_getElem_frame (p_id : Nat) (f : Listing → Listing × Option ContractErr) :
    ∀ xs : List Listing, ∀ i : Nat, ∀ l : Listing, xs[i]? = some l →
      (l.product_id ≠ p_id ∨
        ∃ k, k < i ∧ ∃ lk : Listing, xs[k]? = some lk ∧ lk.product_id = p_id) →
      (updateFirst p_id f xs).1[i]? = some l := by
  intro xs
  induction xs with
  | nil => intro i l h; simp at h
  | cons item rest ih =>
      intro i l h hnf
      by_cases h₀ : item.product_id = p_id
      · simp only [updateFirst, if_pos h₀]
        match i with
        | 0 =>
            simp only [List.getElem?_cons_zero, Option.some.injEq] at h
            subst h
            rcases hnf with hne | ⟨k, hk, _⟩
            · exact absurd h₀ hne
            · omega
        | i + 1 =>
            simp only [List.getElem?_cons_succ] at h ⊢
            exact h
      · simp only [updateFirst, if_neg h₀]
        match i with
        | 0 =>
            simp only [List.getElem?_cons_zero, Option.some.injEq] at h
            subst h
            simp
        | i + 1 =>
            simp only [List.getElem?_cons_succ] at h ⊢
            refine ih i l h ?_
            rcases hnf with hne | ⟨k, hk, lk, hlk, hpk⟩
            · exact Or.inl hne
            · match k, hlk with
              | 0, hlk =>
                  simp only [List.getElem?_cons_zero, Option.some.injEq] at hlk
                  exact absurd (hlk ▸ hpk) h₀
              | k + 1, hlk =>
                  simp only [List.getElem?_cons_succ] at hlk
                  exact Or.inr ⟨k, by omega, lk, hlk, hpk⟩

theorem updateFirst_mem (p_id : Nat) (f : Listing → Listing × Option ContractErr) :
    ∀ xs : List Listing, ∀ x ∈ (updateFirst p_id f xs).1,
      x ∈ xs ∨ ∃ l ∈ xs, x = (f l).1 := by
  intro xs
  induction xs with
  | nil => intro x hx; simp [updateFirst] at hx
  | cons item rest ih =>
      intro x hx
      by_cases h₀ : item.product_id = p_id
      · simp only [updateFirst, if_pos h₀, List.mem_cons] at hx
        rcases hx with hx | hx
        · exact Or.inr ⟨item, List.mem_cons_self _ _, hx⟩
        · exact Or.inl (List.mem_cons_of_mem _ hx)
      · simp only [updateFirst, if_neg h₀, List.mem_cons] at hx
        rcases hx with hx | hx
        · exact Or.inl (hx ▸ List.mem_cons_self _ _)
        · rcases ih x hx with h | ⟨l, hl, he⟩
          · exact Or.inl (List.mem_cons_of_mem _ h)
          · exact Or.inr ⟨l, List.mem_cons_of_mem _ hl, he⟩

/-! ### Map lemmas -/

theorem mapLookup_mapInsert_self (k : AccountId) (v : String) :
    ∀ m : List (AccountId × String), mapLookup (mapInsert m k v) k = some v := by
  intro m
  induction m with
  | nil => simp [mapInsert, mapLookup]
  | cons kv rest ih =>
      obtain ⟨k₀, v₀⟩ := kv
      by_cases h : k₀ = k
      · simp [mapInsert, h, mapLookup]
      · simp [mapInsert, h, mapLookup, ih]

/-! ### Per-body facts -/

theorem buyUpd_product_id (b : AccountId) (item : Listing) :
    (buyUpd b item).product_id = item.product_id := rfl

theorem grantBody_product_id (caller buyer : AccountId) (item : Listing) :
    ((grantBody caller buyer item).1).product_id = item.product_id := by
  unfold grantBody
  split <;> [rfl; split <;> rfl]

theorem revokeBody_product_id (caller buyer : AccountId) (item : Listing) :
    ((revokeBody caller buyer item).1).product_id = item.product_id := by
  unfold revokeBody
  split <;> rfl

theorem grantBody_err (caller buyer : AccountId) (item : Listing) (e : ContractErr)
    (h : (grantBody caller buyer item).2 = some e) :
    (grantBody caller buyer item).1 = item := by
  unfold grantBody at h ⊢
  split at h
  · rename_i hc
    simp only [if_pos hc]
  · split at h
    · rename_i hc hb
      simp only [if_neg hc, if_pos hb]
    · simp at h

theorem revokeBody_err (caller buyer : AccountId) (item : Listing) (e : ContractErr)
    (h : (revokeBody caller buyer item).2 = some e) :
    (revokeBody caller buyer item).1 = item := by
  unfold revokeBody at h ⊢
  split at h
  · rename_i hc
    simp only [if_pos hc]
  · simp at h

/-! ### The data-model invariant: deduplicated buyers, access within buyers -/

/-- Per-listing invariant: `buyers` behaves as a set (no duplicates) and
`buyers_with_access ⊆ buyers`. -/
def ListingInv (l : Listing) : Prop :=
  l.buyers.Nodup ∧ l.buyers_with_access ⊆ l.buyers

/-- Store invariant: every listing satisfies `ListingInv`. -/
def Inv (c : Contract) : Prop :=
  ∀ l ∈ c.listings, ListingInv l

theorem buyUpd_inv (b : AccountId) (item : Listing) (h : ListingInv item) :
    ListingInv (buyUpd b item) := by
  obtain ⟨hnd, hsub⟩ := h
  by_cases hb : b ∈ item.buyers
  · exact ⟨by simpa [buyUpd, hb] using hnd, by simpa [buyUpd, hb] using hsub⟩
  · refine ⟨?_, ?_⟩
    · simp only [buyUpd, if_neg hb]
      simpa [List.nodup_append] using ⟨hnd, hb⟩
    · simp only [buyUpd, if_neg hb]
      exact hsub.trans (List.subset_append_left _ _)

theorem grantBody_inv (caller buyer : AccountId) (item : Listing) (h : ListingInv item) :
    ListingInv ((grantBody caller buyer item).1) := by
  obtain ⟨hnd, hsub⟩ := h
  unfold grantBody
  split
  · exact ⟨hnd, hsub⟩
  · split
    · exact ⟨hnd, hsub⟩
    · rename_i hmem
      rw [not_not] at hmem
      by_cases ha : buyer ∈ item.buyers_with_access
      · exact ⟨by simpa [ha] using hnd, by simpa [ha] using hsub⟩
      · refine ⟨by simpa [ha] using hnd, ?_⟩
        simp only [if_neg ha]
        intro x hx
        rcases List.mem_append.mp hx with hx | hx
        · exact hsub hx
        · simpa using (List.mem_singleton.mp hx) ▸ hmem

theorem revokeBody_inv (caller buyer : AccountId) (item : Listing) (h : ListingInv item) :
    ListingInv ((revokeBody caller buyer item).1) := by
  obtain ⟨hnd, hsub⟩ := h
  unfold revokeBody
  split
  · exact ⟨hnd, hsub⟩
  · exact ⟨hnd, fun x hx => hsub (List.mem_of_mem_filter hx)⟩

theorem inv_init : Inv Contract.init := by
  intro l hl
  simp [Contract.init] at hl

theorem inv_exec (c : Contract) (op : Op) (h : Inv c) : Inv (exec c op) := by
  cases op with
  | createOp product_id price nova_group_id list_type cid gp_owner tv ts =>
      intro l hl
      rcases List.mem_append.mp hl with hl | hl
      · exact h l hl
      · rw [List.mem_singleton.mp hl]
        exact ⟨List.nodup_nil, List.nil_subset _⟩
  | buyOp caller p_id nova_account_id =>
      intro l hl
      rcases updateFirst_mem p_id _ c.listings l hl with hl | ⟨l₀, hl₀, he⟩
      · exact h l hl
      · exact he ▸ buyUpd_inv caller l₀ (h l₀ hl₀)
  | grantOp caller p_id buyer =>
      show Inv (match grant_buyer_access c caller p_id buyer with
        | (c₁, none) => c₁
        | (_, some _) => c)
      rcases he : (grant_buyer_access c caller p_id buyer).2 with _ | e
      · have hsplit : grant_buyer_access c caller p_id buyer =
            ((grant_buyer_access c caller p_id buyer).1, none) := by
          rw [← he]
        rw [hsplit]
        intro l hl
        rcases updateFirst_mem p_id _ c.listings l hl with hl | ⟨l₀, hl₀, hx⟩
        · exact h l hl
        · exact hx ▸ grantBody_inv caller buyer l₀ (h l₀ hl₀)
      · have hsplit : grant_buyer_access c caller p_id buyer =
            ((grant_buyer_access c caller p_id buyer).1, some e) := by
          rw [← he]
        rw [hsplit]
        exact h
  | revokeOp caller p_id buyer =>
      show Inv (match revoke_buyer_access c caller p_id buyer with
        | (c₁, none) => c₁
        | (_, some _) => c)
      rcases he : (revoke_buyer_access c caller p_id buyer).2 with _ | e
      · have hsplit : revoke_buyer_access c caller p_id buyer =
            ((revoke_buyer_access c caller p_id buyer).1, none) := by
          rw [← he]
        rw [hsplit]
        intro l hl
        rcases updateFirst_mem p_id _ c.listings l hl with hl | ⟨l₀, hl₀, hx⟩
        · exact h l hl
        · exact hx ▸ revokeBody_inv caller buyer l₀ (h l₀ hl₀)
      · have hsplit : revoke_buyer_access c caller p_id buyer =
            ((revoke_buyer_access c caller p_id buyer).1, some e) := by
          rw [← he]
        rw [hsplit]
        exact h

theorem inv_execAll (ops : List Op) :
    ∀ c : Contract, Inv c → Inv (execAll c ops) := by
  induction ops with
  | nil => intro c h; exact h
  | cons op rest ih =>
      intro c h
      exact ih (exec c op) (inv_exec c op h)

theorem reachable_inv (c : Contract) (h : Reachable c) : Inv c := by
  obtain ⟨ops, hops⟩ := h
  exact hops ▸ inv_execAll ops Contract.init inv_init

/-! ### Repeated purchases -/

theorem buy_get_listing (c : Contract) (caller : AccountId) (p_id : Nat)
    (nova : String) (l : Listing) (h : get_listing c p_id = some l) :
    get_listing (buy c caller p_id nova) p_id = some (buyUpd caller l) :=
  (updateFirst_of_some p_id (fun item => (buyUpd caller item, none))
    (fun item => buyUpd_product_id caller item) c.listings l h).1

theorem buyUpd_count_one (caller : AccountId) (l : Listing)
    (h : l.buyers.count caller ≤ 1) :
    (buyUpd caller l).buyers.count caller = 1 := by
  by_cases hb : caller ∈ l.buyers
  · have h1 : 0 < l.buyers.count caller := List.count_pos_iff.mpr hb
    simp only [buyUpd, if_pos hb]
    omega
  · have h0 : l.buyers.count caller = 0 := List.count_eq_zero.mpr hb
    simp [buyUpd, if_neg hb, List.count_append, h0]

theorem buy_seq (caller : AccountId) (p_id : Nat) :
    ∀ ops : List Op, (∀ op ∈ ops, ∃ nova, op = Op.buyOp caller p_id nova) →
      ∀ c : Contract, ∀ l : Listing, get_listing c p_id = some l →
        l.purchase_number < 4294967296 →
        l.buyers.count caller ≤ 1 →
        ∃ l₂ : Listing, get_listing (execAll c ops) p_id = some l₂ ∧
          l₂.purchase_number = (l.purchase_number + ops.length) % 4294967296 ∧
          ((ops = [] ∧ l₂ = l) ∨ l₂.buyers.count caller = 1) := by
  intro ops
  induction ops with
  | nil =>
      intro _ c l hl hlt _
      refine ⟨l, hl, ?_, Or.inl ⟨rfl, rfl⟩⟩
      simp only [List.length_nil]
      omega
  | cons op rest ih =>
      intro hops c l hl hlt hcount
      obtain ⟨nova, rfl⟩ := hops op (List.mem_cons_self _ _)
      have hstep : get_listing (buy c caller p_id nova) p_id = some (buyUpd caller l) :=
        buy_get_listing c caller p_id nova l hl
      have hc1 : (buyUpd caller l).buyers.count caller = 1 :=
        buyUpd_count_one caller l hcount
      have hpn : (buyUpd caller l).purchase_number =
          (l.purchase_number + 1) % 4294967296 := rfl
      have hlt₂ : (buyUpd caller l).purchase_number < 4294967296 := by
        rw [hpn]
        omega
      obtain ⟨l₂, hg, hp, hd⟩ := ih (fun o ho => hops o (List.mem_cons_of_mem _ ho))
        (buy c caller p_id nova) (buyUpd caller l) hstep hlt₂ (le_of_eq hc1)
      refine ⟨l₂, hg, ?_, Or.inr ?_⟩
      · rw [hpn] at hp
        simp only [List.length_cons]
        omega
      · rcases hd with ⟨_, he⟩ | h1
        · exact he ▸ hc1
        · exact h1

/-! ### Frame conditions: the immutable fields of a listing -/

/-- Equality of every listing field other than `purchase_number`, `buyers`
and `buyers_with_access`. -/
def FrameEq (l l₂ : Listing) : Prop :=
  l₂.product_id = l.product_id ∧ l₂.price = l.price ∧
  l₂.nova_group_id = l.nova_group_id ∧ l₂.owner = l.owner ∧
  l₂.list_type = l.list_type ∧ l₂.cid = l.cid ∧ l₂.is_active = l.is_active ∧
  l₂.is_tee_verified = l.is_tee_verified ∧ l₂.tee_signature = l.tee_signature

theorem frameEq_refl (l : Listing) : FrameEq l l :=
  ⟨rfl, rfl, rfl, rfl, rfl, rfl, rfl, rfl, rfl⟩

theorem buyUpd_frame (b : AccountId) (item : Listing) :
    FrameEq item (buyUpd b item) :=
  ⟨rfl, rfl, rfl, rfl, rfl, rfl, rfl, rfl, rfl⟩

theorem grantBody_frame (caller buyer : AccountId) (item : Listing) :
    FrameEq item ((grantBody caller buyer item).1) := by
  unfold grantBody
  split
  · exact frameEq_refl item
  · split
    · exact frameEq_refl item
    · exact ⟨rfl, rfl, rfl, rfl, rfl, rfl, rfl, rfl, rfl⟩

theorem revokeBody_frame (caller buyer : AccountId) (item : Listing) :
    FrameEq item ((revokeBody caller buyer item).1) := by
  unfold revokeBody
  split
  · exact frameEq_refl item
  · exact ⟨rfl, rfl, rfl, rfl, rfl, rfl, rfl, rfl, rfl⟩

theorem updateFirst_frame (p_id : Nat) (f : Listing → Listing × Option ContractErr)
    (hf : ∀ item, FrameEq item ((f item).1)) (xs : List Listing) (i : Nat)
    (l : Listing) (h : xs[i]? = some l) :
    ∃ l₂ : Listing, (updateFirst p_id f xs).1[i]? = some l₂ ∧ FrameEq l l₂ := by
  rcases updateFirst_getElem_cases p_id f xs i l h with hc | hc
  · exact ⟨l, hc, frameEq_refl l⟩
  · exact ⟨(f l).1, hc, hf l⟩

/-! ### Concrete demonstration states -/

/-- The listing produced by the demo `create_listing` call. -/
def demoListing : Listing :=
  { product_id := 1, price := 5, nova_group_id := "g", owner := "alice.near",
    purchase_number := 0, list_type := ListingKind.Image, cid := "cid",
    is_active := true, buyers := [], buyers_with_access := [],
    is_tee_verified := false, tee_signature := none }

def demoCreate : Op :=
  Op.createOp 1 5 "g" ListingKind.Image "cid" "alice.near" false none

/-- One listing, owned by alice, nobody has bought yet. -/
def demoState : Contract := exec Contract.init demoCreate

def demoOps3 : List Op :=
  [demoCreate, Op.buyOp "bob.near" 1 "bob.nova", Op.grantOp "alice.near" 1 "bob.near"]

/-- One listing; bob bought and was granted access by alice. -/
def demoState3 : Contract := execAll Contract.init demoOps3

/-- The demo listing after bob's purchase and grant. -/
def demoListing3 : Listing :=
  { product_id := 1, price := 5, nova_group_id := "g", owner := "alice.near",
    purchase_number := 1, list_type := ListingKind.Image, cid := "cid",
    is_active := true, buyers := ["bob.near"], buyers_with_access := ["bob.near"],
    is_tee_verified := false, tee_signature := none }

/-- First of two listings sharing `product_id = 1`. -/
def dupA : Listing :=
  { product_id := 1, price := 5, nova_group_id := "g", owner := "alice.near",
    purchase_number := 0, list_type := ListingKind.Image, cid := "first",
    is_active := true, buyers := [], buyers_with_access := [],
    is_tee_verified := false, tee_signature := none }

/-- Second of two listings sharing `product_id = 1`. -/
def dupB : Listing :=
  { product_id := 1, price := 7, nova_group_id := "h", owner := "carol.near",
    purchase_number := 0, list_type := ListingKind.Audio, cid := "second",
    is_active := true, buyers := [], buyers_with_access := [],
    is_tee_verified := false, tee_signature := none }

/-- Two listings with the same `product_id`, created in order `dupA`, `dupB`. -/
def dupState : Contract :=
  execAll Contract.init
    [Op.createOp 1 5 "g" ListingKind.Image "first" "alice.near" false none,
     Op.createOp 1 7 "h" ListingKind.Audio "second" "carol.near" false none]

/-! ### The claims -/

/-- C1 (amended): for every sequence of `n ≥ 1` `buy` calls by the same
caller on the same `product_id` of an existing listing of a reachable store,
provided the listing's `purchase_number` plus `n` stays below the u32 bound
`2^32 = 4294967296`, afterwards the listing's `buyers` list contains that
caller exactly once, while its `purchase_number` has increased by exactly `n`.
(Without the bound the statement fails: the u32 counter wraps at `2^32` —
see the counterexample.) -/
theorem C1_buy_sequence (c : Contract) (hc : Reachable c) (caller : AccountId)
    (p_id : Nat) (l : Listing) (hl : get_listing c p_id = some l)
    (ops : List Op) (hne : ops ≠ [])
    (hops : ∀ op ∈ ops, ∃ nova, op = Op.buyOp caller p_id nova)
    (hbound : l.purchase_number + ops.length < 4294967296) :
    ∃ l₂ : Listing, get_listing (execAll c ops) p_id = some l₂ ∧
      l₂.buyers.count caller = 1 ∧
      l₂.purchase_number = l.purchase_number + ops.length := by
  have hinv := reachable_inv c hc
  have hmem : l ∈ c.listings := findListing_mem p_id c.listings l hl
  have hle : l.buyers.count caller ≤ 1 :=
    List.nodup_iff_count_le_one.mp (hinv l hmem).1 caller
  have hlt : l.purchase_number < 4294967296 := by omega
  obtain ⟨l₂, hg, hp, hd⟩ := buy_seq caller p_id ops hops c l hl hlt hle
  rcases hd with ⟨h0, _⟩ | h1
  · exact absurd h0 hne
  · refine ⟨l₂, hg, h1, ?_⟩
    rw [hp]
    omega

/-- C1, as originally stated, is false of the u32 counter: after exactly
`2^32` buys by bob on the demo listing the counter has wrapped back to `0`
instead of having increased by `2^32`. -/
theorem C1_buy_sequence_counterexample :
    ¬ ∃ l₂ : Listing,
        get_listing (execAll demoState
          (List.replicate 4294967296 (Op.buyOp "bob.near" 1 "bob.nova"))) 1 =
          some l₂ ∧
        l₂.buyers.count "bob.near" = 1 ∧
        l₂.purchase_number =
          demoListing.purchase_number +
            (List.replicate 4294967296 (Op.buyOp "bob.near" 1 "bob.nova")).length := by
  intro hex
  obtain ⟨l₂, hg, _, hp⟩ := hex
  obtain ⟨l₃, hg₃, hp₃, _⟩ := buy_seq "bob.near" 1
    (List.replicate 4294967296 (Op.buyOp "bob.near" 1 "bob.nova"))
    (fun op hop => ⟨"bob.nova", List.eq_of_mem_replicate hop⟩)
    demoState demoListing rfl (by decide) (by decide)
  rw [hg₃] at hg
  have hl : l₃ = l₂ := Option.some.inj hg
  rw [List.length_replicate] at hp₃ hp
  have h0 : demoListing.purchase_number = 0 := rfl
  rw [h0] at hp₃ hp
  rw [hl] at hp₃
  omega

theorem C1_buy_sequence_witness :
    ∃ l₂ : Listing,
      get_listing (execAll demoState
        [Op.buyOp "bob.near" 1 "bob.nova", Op.buyOp "bob.near" 1 "bob.nova2"]) 1 =
        some l₂ ∧
      l₂.buyers.count "bob.near" = 1 ∧
      l₂.purchase_number = demoListing.purchase_number + 2 :=
  C1_buy_sequence demoState ⟨[demoCreate], rfl⟩ "bob.near" 1 demoListing rfl
    [Op.buyOp "bob.near" 1 "bob.nova", Op.buyOp "bob.near" 1 "bob.nova2"]
    (List.cons_ne_nil _ _)
    (by
      intro op hop
      rcases List.mem_cons.mp hop with h | h
      · exact ⟨"bob.nova", h⟩
      · exact ⟨"bob.nova2", List.mem_singleton.mp h⟩)
    (by decide)

/-- C2: on an existing listing, `grant_buyer_access` fails with the
authorization error exactly when the caller is not the owner (whatever the
buyer's state), fails with the precondition error, when the caller is the
owner, exactly when the buyer has not purchased, and succeeds when both checks
pass; `revoke_buyer_access` fails with the authorization error exactly when
the caller is not the owner, and succeeds otherwise. -/
theorem C2_grant_revoke_checks (c : Contract) (caller buyer : AccountId)
    (p_id : Nat) (l : Listing) (hl : get_listing c p_id = some l) :
    ((grant_buyer_access c caller p_id buyer).2 = some ContractErr.authorization ↔
      caller ≠ l.owner) ∧
    (caller = l.owner →
      ((grant_buyer_access c caller p_id buyer).2 = some ContractErr.precondition ↔
        buyer ∉ l.buyers)) ∧
    (caller = l.owner → buyer ∈ l.buyers →
      (grant_buyer_access c caller p_id buyer).2 = none) ∧
    ((revoke_buyer_access c caller p_id buyer).2 = some ContractErr.authorization ↔
      caller ≠ l.owner) ∧
    (caller = l.owner → (revoke_buyer_access c caller p_id buyer).2 = none) := by
  have hg : (grant_buyer_access c caller p_id buyer).2 = (grantBody caller buyer l).2 :=
    (updateFirst_of_some p_id (grantBody caller buyer)
      (grantBody_product_id caller buyer) c.listings l hl).2
  have hr : (revoke_buyer_access c caller p_id buyer).2 = (revokeBody caller buyer l).2 :=
    (updateFirst_of_some p_id (revokeBody caller buyer)
      (revokeBody_product_id caller buyer) c.listings l hl).2
  rw [hg, hr]
  by_cases ho : l.owner = caller
  · by_cases hb : buyer ∈ l.buyers
    · refine ⟨?_, ?_, ?_, ?_, ?_⟩ <;>
        simp [grantBody, revokeBody, ho, hb]
    · refine ⟨?_, ?_, ?_, ?_, ?_⟩ <;>
        simp [grantBody, revokeBody, ho, hb]
  · have ho₂ : caller ≠ l.owner := fun h => ho h.symm
    refine ⟨?_, ?_, ?_, ?_, ?_⟩ <;>
      simp [grantBody, revokeBody, ho, ho₂]

theorem C2_grant_revoke_checks_witness :
    (grant_buyer_access demoState3 "eve.near" 1 "bob.near").2 =
      some ContractErr.authorization ∧
    (revoke_buyer_access demoState3 "eve.near" 1 "bob.near").2 =
      some ContractErr.authorization :=
  ⟨(C2_grant_revoke_checks demoState3 "eve.near" "bob.near" 1 demoListing3
      (by decide)).1.mpr (by decide),
   (C2_grant_revoke_checks demoState3 "eve.near" "bob.near" 1 demoListing3
      (by decide)).2.2.2.1.mpr (by decide)⟩

/-- C3: in every reachable state, every listing's `buyers_with_access` is
contained in its `buyers`. -/
theorem C3_access_subset_buyers (c : Contract) (hc : Reachable c) :
    ∀ l ∈ c.listings, ∀ a ∈ l.buyers_with_access, a ∈ l.buyers := by
  intro l hl a ha
  exact (reachable_inv c hc l hl).2 ha

theorem C3_access_subset_buyers_witness : "bob.near" ∈ demoListing3.buyers :=
  C3_access_subset_buyers demoState3 ⟨demoOps3, rfl⟩ demoListing3 (by decide)
    "bob.near" (by decide)

/-- C4: every `buy` call writes the caller's NOVA account into the identity
map, and when no listing has the requested `product_id` the listings are left
entirely unchanged while the identity write still takes effect. -/
theorem C4_buy_identity_write (c : Contract) (caller : AccountId) (p_id : Nat)
    (nova : String) :
    (buy c caller p_id nova).nova_account_map =
      mapInsert c.nova_account_map caller nova ∧
    (get_listing c p_id = none → (buy c caller p_id nova).listings = c.listings) := by
  refine ⟨rfl, fun h => ?_⟩
  show (updateFirst p_id (fun item => (buyUpd caller item, none)) c.listings).1 =
    c.listings
  rw [updateFirst_of_none p_id _ c.listings h]

theorem C4_buy_identity_write_witness :
    (buy demoState "bob.near" 99 "bob.nova").nova_account_map =
      mapInsert demoState.nova_account_map "bob.near" "bob.nova" ∧
    (buy demoState "bob.near" 99 "bob.nova").listings = demoState.listings :=
  ⟨(C4_buy_identity_write demoState "bob.near" 99 "bob.nova").1,
   (C4_buy_identity_write demoState "bob.near" 99 "bob.nova").2 (by decide)⟩

/-- C5: in every reachable state, for every existing listing, the
pending-access buyers and the buyers with access are disjoint and together
cover exactly the listing's buyers. -/
theorem C5_pending_access_partition (c : Contract) (hc : Reachable c)
    (p_id : Nat) (l : Listing) (hl : get_listing c p_id = some l) :
    (∀ x : AccountId,
      ¬(x ∈ get_pending_access_buyers c p_id ∧ x ∈ get_buyers_with_access c p_id)) ∧
    (∀ x : AccountId,
      x ∈ get_pending_access_buyers c p_id ∨ x ∈ get_buyers_with_access c p_id ↔
        x ∈ l.buyers) := by
  have hsub : l.buyers_with_access ⊆ l.buyers :=
    (reachable_inv c hc l (findListing_mem p_id c.listings l hl)).2
  have hp : get_pending_access_buyers c p_id =
      l.buyers.filter (fun buyer => decide (buyer ∉ l.buyers_with_access)) := by
    unfold get_pending_access_buyers
    rw [hl]
  have hw : get_buyers_with_access c p_id = l.buyers_with_access := by
    unfold get_buyers_with_access
    rw [hl]
  rw [hp, hw]
  constructor
  · intro x hx
    obtain ⟨hx1, hx2⟩ := hx
    rw [List.mem_filter, decide_eq_true_eq] at hx1
    exact hx1.2 hx2
  · intro x
    rw [List.mem_filter, decide_eq_true_eq]
    constructor
    · intro hx
      rcases hx with ⟨hb, _⟩ | ha
      · exact hb
      · exact hsub ha
    · intro hb
      by_cases ha : x ∈ l.buyers_with_access
      · exact Or.inr ha
      · exact Or.inl ⟨hb, ha⟩

theorem C5_pending_access_partition_witness :
    ("carol.near" ∈ get_pending_access_buyers demoState3 1 ∨
      "carol.near" ∈ get_buyers_with_access demoState3 1) ↔
      "carol.near" ∈ demoListing3.buyers :=
  (C5_pending_access_partition demoState3 ⟨demoOps3, rfl⟩ 1 demoListing3
    (by decide)).2 "carol.near"

/-- C6: when `grant_buyer_access` or `revoke_buyer_access` aborts with an
error, the state at the abort (listings and identity map alike) is exactly the
pre-call state: every check precedes every mutation. -/
theorem C6_abort_no_mutation (c : Contract) (caller buyer : AccountId)
    (p_id : Nat) (e : ContractErr) :
    ((grant_buyer_access c caller p_id buyer).2 = some e →
      (grant_buyer_access c caller p_id buyer).1 = c) ∧
    ((revoke_buyer_access c caller p_id buyer).2 = some e →
      (revoke_buyer_access c caller p_id buyer).1 = c) := by
  constructor
  · intro h
    have hu := updateFirst_err p_id (grantBody caller buyer)
      (grantBody_err caller buyer) c.listings e h
    show ({ c with
      listings := (updateFirst p_id (grantBody caller buyer) c.listings).1 } :
        Contract) = c
    rw [hu]
  · intro h
    have hu := updateFirst_err p_id (revokeBody caller buyer)
      (revokeBody_err caller buyer) c.listings e h
    show ({ c with
      listings := (updateFirst p_id (revokeBody caller buyer) c.listings).1 } :
        Contract) = c
    rw [hu]

theorem C6_abort_no_mutation_witness :
    (grant_buyer_access demoState3 "eve.near" 1 "bob.near").1 = demoState3 ∧
    (revoke_buyer_access demoState3 "eve.near" 1 "bob.near").1 = demoState3 :=
  ⟨(C6_abort_no_mutation demoState3 "eve.near" "bob.near" 1
      ContractErr.authorization).1 (by decide),
   (C6_abort_no_mutation demoState3 "eve.near" "bob.near" 1
      ContractErr.authorization).2 (by decide)⟩

/-- C7: `get_listing` returns the first listing in storage (creation) order
whose `product_id` matches — on duplicates, the earliest-created one — and
`none` when no listing matches. -/
theorem C7_get_listing_first_match (c : Contract) (p_id : Nat) :
    (∀ xs ys : List Listing, ∀ l : Listing,
      c.listings = xs ++ l :: ys → (∀ x ∈ xs, x.product_id ≠ p_id) →
      l.product_id = p_id → get_listing c p_id = some l) ∧
    ((∀ x ∈ c.listings, x.product_id ≠ p_id) → get_listing c p_id = none) := by
  constructor
  · intro xs ys l hsplit hxs hl
    show findListing p_id c.listings = some l
    rw [hsplit]
    exact findListing_append_first p_id l ys hl xs hxs
  · intro h
    exact findListing_eq_none p_id c.listings h

theorem C7_get_listing_first_match_witness :
    get_listing dupState 1 = some dupA ∧ get_listing dupState 2 = none :=
  ⟨(C7_get_listing_first_match dupState 1).1 [] [dupB] dupA (by decide)
      (by intro x hx; exact absurd hx (List.not_mem_nil x)) (by decide),
   (C7_get_listing_first_match dupState 2).2 (by decide)⟩

/-- C8: the identity map is last-write-wins: after `buy` by `a` with external
id `x`, `get_nova_account a = some x`; after a subsequent `buy` by `a` with
`y`, it returns `some y`. -/
theorem C8_identity_last_write_wins (c : Contract) (a : AccountId)
    (p q : Nat) (x y : String) :
    get_nova_account (buy c a p x) a = some x ∧
    get_nova_account (buy (buy c a p x) a q y) a = some y :=
  ⟨mapLookup_mapInsert_self a x c.nova_account_map,
   mapLookup_mapInsert_self a y (buy c a p x).nova_account_map⟩

/-- C9: no operation deletes a listing (indices persist), and every field of a
pre-existing listing other than `purchase_number`, `buyers` and
`buyers_with_access` is unchanged by every operation. -/
theorem C9_immutable_fields (c : Contract) (op : Op) :
    c.listings.length ≤ (exec c op).listings.length ∧
    ∀ i : Nat, ∀ l : Listing, c.listings[i]? = some l →
      ∃ l₂ : Listing, (exec c op).listings[i]? = some l₂ ∧ FrameEq l l₂ := by
  cases op with
  | createOp product_id price nova_group_id list_type cid gp_owner tv ts =>
      constructor
      · show c.listings.length ≤ (c.listings ++ _).length
        simp
      · intro i l h
        obtain ⟨hlt, _⟩ := List.getElem?_eq_some_iff.mp h
        refine ⟨l, ?_, frameEq_refl l⟩
        show (c.listings ++ _)[i]? = some l
        rw [List.getElem?_append_left hlt]
        exact h
  | buyOp caller p_id nova_account_id =>
      constructor
      · show c.listings.length ≤
          (updateFirst p_id (fun item => (buyUpd caller item, none)) c.listings).1.length
        rw [updateFirst_length]
      · intro i l h
        exact updateFirst_frame p_id _ (fun item => buyUpd_frame caller item)
          c.listings i l h
  | grantOp caller p_id buyer =>
      have hexec : exec c (Op.grantOp caller p_id buyer) = c ∨
          exec c (Op.grantOp caller p_id buyer) =
            { c with listings :=
                (updateFirst p_id (grantBody caller buyer) c.listings).1 } := by
        rcases he : (grant_buyer_access c caller p_id buyer).2 with _ | e
        · right
          have hsplit : grant_buyer_access c caller p_id buyer =
              ((grant_buyer_access c caller p_id buyer).1, none) := by
            rw [← he]
          show (match grant_buyer_access c caller p_id buyer with
            | (c₁, none) => c₁
            | (_, some _) => c) =
            { c with listings :=
                (updateFirst p_id (grantBody caller buyer) c.listings).1 }
          rw [hsplit]
          rfl
        · left
          have hsplit : grant_buyer_access c caller p_id buyer =
              ((grant_buyer_access c caller p_id buyer).1, some e) := by
            rw [← he]
          show (match grant_buyer_access c caller p_id buyer with
            | (c₁, none) => c₁
            | (_, some _) => c) = c
          rw [hsplit]
      rcases hexec with hexec | hexec <;> rw [hexec]
      · exact ⟨le_refl _, fun i l h => ⟨l, h, frameEq_refl l⟩⟩
      · constructor
        · show c.listings.length ≤
            (updateFirst p_id (grantBody caller buyer) c.listings).1.length
          rw [updateFirst_length]
        · intro i l h
          exact updateFirst_frame p_id _
            (fun item => grantBody_frame caller buyer item) c.listings i l h
  | revokeOp caller p_id buyer =>
      have hexec : exec c (Op.revokeOp caller p_id buyer) = c ∨
          exec c (Op.revokeOp caller p_id buyer) =
            { c with listings :=
                (updateFirst p_id (revokeBody caller buyer) c.listings).1 } := by
        rcases he : (revoke_buyer_access c caller p_id buyer).2 with _ | e
        · right
          have hsplit : revoke_buyer_access c caller p_id buyer =
              ((revoke_buyer_access c caller p_id buyer).1, none) := by
            rw [← he]
          show (match revoke_buyer_access c caller p_id buyer with
            | (c₁, none) => c₁
            | (_, some _) => c) =
            { c with listings :=
                (updateFirst p_id (revokeBody caller buyer) c.listings).1 }
          rw [hsplit]
          rfl
        · left
          have hsplit : revoke_buyer_access c caller p_id buyer =
              ((revoke_buyer_access c caller p_id buyer).1, some e) := by
            rw [← he]
          show (match revoke_buyer_access c caller p_id buyer with
            | (c₁, none) => c₁
            | (_, some _) => c) = c
          rw [hsplit]
      rcases hexec with hexec | hexec <;> rw [hexec]
      · exact ⟨le_refl _, fun i l h => ⟨l, h, frameEq_refl l⟩⟩
      · constructor
        · show c.listings.length ≤
            (updateFirst p_id (revokeBody caller buyer) c.listings).1.length
          rw [updateFirst_length]
        · intro i l h
          exact updateFirst_frame p_id _
            (fun item => revokeBody_frame caller buyer item) c.listings i l h

theorem C9_immutable_fields_witness :
    ∃ l₂ : Listing,
      (exec demoState (Op.buyOp "bob.near" 1 "bob.nova")).listings[0]? = some l₂ ∧
      FrameEq demoListing l₂ :=
  (C9_immutable_fields demoState (Op.buyOp "bob.near" 1 "bob.nova")).2 0
    demoListing (by decide)

/-- C10: `buy`, `grant_buyer_access` and `revoke_buyer_access` mutate at most
the earliest-created listing matching the `product_id`: every listing that
either does not match or is preceded by a matching one is left unchanged. -/
theorem C10_only_first_match (c : Contract) (caller buyer : AccountId)
    (p_id : Nat) (nova : String) (i : Nat) (l : Listing)
    (hi : c.listings[i]? = some l)
    (hnf : l.product_id ≠ p_id ∨
      ∃ k, k < i ∧ ∃ lk : Listing, c.listings[k]? = some lk ∧
        lk.product_id = p_id) :
    (buy c caller p_id nova).listings[i]? = some l ∧
    (grant_buyer_access c caller p_id buyer).1.listings[i]? = some l ∧
    (revoke_buyer_access c caller p_id buyer).1.listings[i]? = some l :=
  ⟨updateFirst_getElem_frame p_id _ c.listings i l hi hnf,
   updateFirst_getElem_frame p_id _ c.listings i l hi hnf,
   updateFirst_getElem_frame p_id _ c.listings i l hi hnf⟩

theorem C10_only_first_match_witness :
    (buy dupState "bob.near" 1 "bob.nova").listings[1]? = some dupB ∧
    (grant_buyer_access dupState "alice.near" 1 "bob.near").1.listings[1]? =
      some dupB ∧
    (revoke_buyer_access dupState "alice.near" 1 "bob.near").1.listings[1]? =
      some dupB :=
  C10_only_first_match dupState "alice.near" "bob.near" 1 "bob.nova" 1 dupB
    (by decide) (Or.inr ⟨0, by decide, dupA, by decide, by decide⟩)

end NearSandbox
